import Mathlib

set_option maxRecDepth 100000

/-!
Verification development for the `resume` CLI (src/src/resume/main.py): a
tool that manages prefixed tmux sessions on a remote host and mirrors them
with local Terminal windows.

The Python source is shallowly embedded below.  Pure string manipulation is
translated to executable Lean functions over `List Char` / `String`;
effectful code (remote commands issued through `ssh_run`, window
open/close automation, the config file) is embedded as explicit traces:
each lifecycle branch is a function from its inputs (the parsed session
snapshot, the configuration, the stdout of the listing query) to a record
of the remote command strings it issues, the number of window-close
invocations, the names passed to window-open, and the process exit code.
Python's per-process salted `hash()` builtin is embedded as an explicit
integer parameter `hashVal`: the value the builtin returns for the session
name in the current process.
-/

/-! ## Small Python string primitives (modelled at the character level) -/

/-- Whitespace characters recognised by the embedding of Python's
`str.strip` (the characters that occur in the program's data: space, tab,
newline, carriage return). -/
def isWsp (c : Char) : Bool :=
  c = ' ' || c = '\t' || c = '\n' || c = '\r'

/-- Embeds Python `str.strip()`: drop leading and trailing whitespace. -/
def trimC (cs : List Char) : List Char :=
  ((cs.dropWhile isWsp).reverse.dropWhile isWsp).reverse

/-- Split a character list on `'\n'`, `String.splitOn`-style (the empty
list yields one empty chunk). -/
def splitOnNl : List Char → List (List Char)
  | [] => [[]]
  | c :: rest =>
    match splitOnNl rest with
    | [] => [[]]
    | l :: ls => if c = '\n' then [] :: l :: ls else (c :: l) :: ls

/-- Embeds Python `str.splitlines()` on LF-separated text (tmux emits LF):
the empty string yields no lines.  The program only ever splits text it
has already stripped, so there is never a trailing newline. -/
def pySplitlines (s : String) : List String :=
  if s.data.isEmpty then [] else (splitOnNl s.data).map String.mk

/-- Embeds Python `str.strip()` at `String` level. -/
def pyStrip (s : String) : String :=
  String.mk (trimC s.data)

/-- Split a character list at its LAST colon: `some (before, after)`, or
`none` when no colon occurs.  This is the core of Python's
`line.rsplit(":", 1)` and of `line.split(":")[-1]`. -/
def breakLast : List Char → Option (List Char × List Char)
  | [] => none
  | c :: rest =>
    match breakLast rest with
    | some (b, a) => some (c :: b, a)
    | none => if c = ':' then some ([], rest) else none

/-- Embeds Python `line.split(":")[-1]`: the text after the last colon,
or the whole line when it has no colon. -/
def lastColonField (line : String) : String :=
  match breakLast line.data with
  | some (_, a) => String.mk a
  | none => line

/-- Embeds Python `s.startswith(pat)` (character-level prefix test). -/
def strStartsWith (s pat : String) : Bool :=
  pat.data.isPrefixOf s.data

/-- Does `pat` occur as a contiguous substring of `s`?  Used to state what
the generated shell commands do and do not contain. -/
def hasChunk (pat : List Char) : List Char → Bool
  | [] => pat.isEmpty
  | c :: rest => pat.isPrefixOf (c :: rest) || hasChunk pat rest

/-- Embeds Python `pat in s` for strings. -/
def containsSub (s pat : String) : Bool :=
  hasChunk pat.data s.data

/-! ## Name validation (`validate_session_name`, main.py lines 76-80) -/

/-- Characters matched by the regex character class `[a-zA-Z0-9_-]`. -/
def isNameChar (c : Char) : Bool :=
  ( 'a' ≤ c && c ≤ 'z') || ( 'A' ≤ c && c ≤ 'Z') ||
  ( '0' ≤ c && c ≤ '9') || c = '_' || c = '-'

/-- One or more characters of the class: the regex body `[a-zA-Z0-9_-]+`. -/
def nameOk (cs : List Char) : Bool :=
  !cs.isEmpty && cs.all isNameChar

/-- Embeds Python `re.match(r"^[a-zA-Z0-9_-]+$", name)` truthiness.
Python's `$` matches at the end of the string OR just before a single
newline at the end of the string, so the regex also matches
`core ++ "\n"` for a non-empty all-class `core`. -/
def reMatchNamePat (s : String) : Bool :=
  nameOk s.data ||
    (match s.data.getLast? with
     | some c => c = '\n' && nameOk s.data.dropLast
     | none => false)

/-- Embeds `validate_session_name` (main.py lines 76-80): returns `true`
when the name is accepted, `false` when the function prints the error and
raises `typer.Exit(1)` before any remote command is issued. -/
def validate_session_name (name : String) : Bool :=
  reMatchNamePat name

/-! ## Python ordering on `(name, attached)` tuples

Python's `sorted` on a list of `(str, bool)` tuples sorts lexicographically:
names are compared by code point, and for equal names `False < True`.
`pairLe` is that total preorder; `pySorted` models `sorted` (a stable sort
over a total order, so any stable sort — here insertion sort — produces the
same list). -/

/-- Code-point comparison of characters, as Python compares strings. -/
def charLtB (c d : Char) : Bool :=
  decide (c < d)

/-- Lexicographic (code-point) strict order on character lists: Python's
`<` on strings. -/
def strLtB : List Char → List Char → Bool
  | [], [] => false
  | [], _ :: _ => true
  | _ :: _, [] => false
  | c :: cs, d :: ds =>
    if charLtB c d then true else if charLtB d c then false else strLtB cs ds

/-- Python `<=` on booleans (`False < True`). -/
def boolLeB (a b : Bool) : Bool :=
  !a || b

/-- Python `<=` on `(name, attached)` tuples. -/
def pairLeB (x y : String × Bool) : Bool :=
  if x.1.data = y.1.data then boolLeB x.2 y.2 else strLtB x.1.data y.1.data

/-- The tuple order as a relation, for `List.insertionSort`. -/
def pairLe (x y : String × Bool) : Prop :=
  pairLeB x y = true

instance pairLe.decRel : DecidableRel pairLe :=
  fun x y => instDecidableEqBool (pairLeB x y) true

theorem strLtB_connex (cs ds : List Char) :
    cs = ds ∨ strLtB cs ds = true ∨ strLtB ds cs = true := by
  induction cs generalizing ds with
  | nil =>
    cases ds with
    | nil => exact Or.inl rfl
    | cons d ds => exact Or.inr (Or.inl rfl)
  | cons c cs ih =>
    cases ds with
    | nil => exact Or.inr (Or.inr rfl)
    | cons d ds =>
      rcases lt_trichotomy c d with h | h | h
      · refine Or.inr (Or.inl ?_)
        simp [strLtB, charLtB, h]
      · subst h
        rcases ih ds with h' | h' | h'
        · exact Or.inl (by rw [h'])
        · exact Or.inr (Or.inl (by simp [strLtB, charLtB, h']))
        · exact Or.inr (Or.inr (by simp [strLtB, charLtB, h']))
      · refine Or.inr (Or.inr ?_)
        simp [strLtB, charLtB, h]

theorem strLtB_trans {as bs cs : List Char}
    (h1 : strLtB as bs = true) (h2 : strLtB bs cs = true) :
    strLtB as cs = true := by
  induction as generalizing bs cs with
  | nil =>
    cases cs with
    | nil =>
      cases bs with
      | nil => exact h1
      | cons b bs => simp [strLtB] at h2
    | cons c cs => rfl
  | cons a as ih =>
    cases bs with
    | nil => simp [strLtB] at h1
    | cons b bs =>
      cases cs with
      | nil => simp [strLtB] at h2
      | cons c cs =>
        simp only [strLtB, charLtB, decide_eq_true_eq] at h1 h2 ⊢
        rcases lt_trichotomy a b with hab | hab | hab
        · rcases lt_trichotomy b c with hbc | hbc | hbc
          · simp [lt_trans hab hbc]
          · subst hbc
            simp [hab]
          · rw [if_neg (asymm hbc), if_pos hbc] at h2
            simp at h2
        · subst hab
          rw [if_neg (lt_irrefl a), if_neg (lt_irrefl a)] at h1
          rcases lt_trichotomy a c with hac | hac | hac
          · simp [hac]
          · subst hac
            rw [if_neg (lt_irrefl a), if_neg (lt_irrefl a)] at h2 ⊢
            exact ih h1 h2
          · rw [if_neg (asymm hac), if_pos hac] at h2
            simp at h2
        · rw [if_neg (asymm hab), if_pos hab] at h1
          simp at h1

theorem strLtB_irrefl (cs : List Char) : strLtB cs cs = false := by
  induction cs with
  | nil => rfl
  | cons c cs ih =>
    simp only [strLtB, charLtB, decide_eq_true_eq]
    rw [if_neg (lt_irrefl c), if_neg (lt_irrefl c)]
    exact ih

instance pairLe.totalRel : IsTotal (String × Bool) pairLe where
  total x y := by
    unfold pairLe pairLeB
    by_cases h : x.1.data = y.1.data
    · rw [if_pos h, if_pos h.symm]
      cases x.2 <;> cases y.2 <;> simp [boolLeB]
    · rw [if_neg h, if_neg (Ne.symm h)]
      rcases strLtB_connex x.1.data y.1.data with he | hl | hl
      · exact absurd he h
      · exact Or.inl hl
      · exact Or.inr hl

instance pairLe.transRel : IsTrans (String × Bool) pairLe where
  trans x y z hxy hyz := by
    unfold pairLe pairLeB at hxy hyz ⊢
    by_cases hxy1 : x.1.data = y.1.data
    · by_cases hyz1 : y.1.data = z.1.data
      · have hxz1 : x.1.data = z.1.data := hxy1.trans hyz1
        rw [if_pos hxy1] at hxy
        rw [if_pos hyz1] at hyz
        rw [if_pos hxz1]
        simp only [boolLeB, Bool.or_eq_true, Bool.not_eq_true'] at hxy hyz ⊢
        rcases hxy with h | h
        · exact Or.inl h
        · rcases hyz with h' | h'
          · simp [h] at h'
          · exact Or.inr h'
      · have hxz1 : ¬ x.1.data = z.1.data := by
          rw [hxy1]
          exact hyz1
        rw [if_neg hyz1] at hyz
        rw [if_neg hxz1, hxy1]
        exact hyz
    · by_cases hyz1 : y.1.data = z.1.data
      · have hxz1 : ¬ x.1.data = z.1.data := by
          rw [← hyz1]
          exact hxy1
        rw [if_neg hxy1] at hxy
        rw [if_neg hxz1, ← hyz1]
        exact hxy
      · rw [if_neg hxy1] at hxy
        rw [if_neg hyz1] at hyz
        by_cases hxz1 : x.1.data = z.1.data
        · have hzz := strLtB_trans hxy hyz
          rw [hxz1] at hzz
          rw [strLtB_irrefl] at hzz
          exact absurd hzz (by simp)
        · rw [if_neg hxz1]
          exact strLtB_trans hxy hyz

/-- Embeds Python `sorted` on the `(name, attached)` tuples. -/
def pySorted (l : List (String × Bool)) : List (String × Bool) :=
  List.insertionSort pairLe l

/-! ## Session registry parsing (`list_remote_sessions`, main.py lines 83-97) -/

/-- The fixed session-name namespace, `PREFIX = "resume-"` in main.py. -/
def pfx : String := "resume-"

/-- Embeds one iteration of the parsing loop of `list_remote_sessions`:
strip the line, skip it when it has no colon, split at the last colon into
`name` and `attached`, keep only names carrying the fixed namespace, strip
the namespace, and mark attached exactly when the counter text is not
`"0"`. -/
def parseSessionLine (raw : String) : Option (String × Bool) :=
  let cs := trimC raw.data
  match breakLast cs with
  | none => none
  | some (nm, cnt) =>
    if pfx.data.isPrefixOf nm then
      some (String.mk (nm.drop pfx.data.length), decide (cnt ≠ [ '0' ]))
    else none

/-- The parsing loop of `list_remote_sessions` over the split lines. -/
def sessionsOfLines (lines : List String) : List (String × Bool) :=
  lines.filterMap parseSessionLine

/-- Parse-then-sort, on already-split lines. -/
def listSessionsOfLines (lines : List String) : List (String × Bool) :=
  pySorted (sessionsOfLines lines)

/-- The remote command issued by every listing query (both
`list_remote_sessions` and `ssh_create_session` build this same string). -/
def listSessionsCmd : String :=
  "tmux list-sessions -F \x27#\x7bsession_name\x7d:#\x7bsession_attached\x7d\x27 2>/dev/null || true"

/-- Embeds `list_remote_sessions` (main.py lines 83-97) as a function of
the stdout captured from the listing query: strip, split into lines,
parse each line, and return the result sorted Python-style. -/
def list_remote_sessions (stdout : String) : List (String × Bool) :=
  listSessionsOfLines (pySplitlines (pyStrip stdout))

/-! ## Configuration (`load_config` / `save_config`, main.py lines 53-64)

The configuration file holds a JSON object; Python's `json` library is the
external serializer, embedded here at the level of the JSON values it
round-trips exactly: an object is an association list of string keys and
(for the recognized fields) string or boolean values.  The filesystem is
`Option JObj`: `none` when the file does not exist. -/

inductive JVal
  | jstr (s : String)
  | jbool (b : Bool)
deriving DecidableEq

abbrev JObj := List (String × JVal)

/-- Embeds `load_config`: the empty object when the file is absent,
otherwise the stored object. -/
def load_config (file : Option JObj) : JObj :=
  match file with
  | none => []
  | some o => o

/-- Embeds `save_config`: whole-file overwrite with the given object. -/
def save_config (o : JObj) (_file : Option JObj) : Option JObj :=
  some o

/-- Embeds `config.get(k)` for a string-valued field. -/
def getStrField (o : JObj) (k : String) : Option String :=
  match o.find? (fun p => p.1 == k) with
  | some (_, JVal.jstr s) => some s
  | _ => none

/-- Embeds `config.get(k)` for a boolean-valued field. -/
def getBoolField (o : JObj) (k : String) : Option Bool :=
  match o.find? (fun p => p.1 == k) with
  | some (_, JVal.jbool b) => some b
  | _ => none

/-- The recognized configuration fields: `ssh_host` (the spec's
`remoteHost`) and `ssh_agent_forwarding` (the spec's `forwardingEnabled`),
each absent when its key is missing. -/
structure Config where
  ssh_host : Option String
  ssh_agent_forwarding : Option Bool
deriving DecidableEq

/-- Read the recognized fields out of a configuration object. -/
def decodeConfig (o : JObj) : Config :=
  { ssh_host := getStrField o ("ssh_host"),
    ssh_agent_forwarding := getBoolField o ("ssh_agent_forwarding") }

/-- The configuration object holding exactly the recognized fields that
are present. -/
def encodeConfig (c : Config) : JObj :=
  (match c.ssh_host with
   | some h => [(("ssh_host"), JVal.jstr h)]
   | none => []) ++
  (match c.ssh_agent_forwarding with
   | some b => [(("ssh_agent_forwarding"), JVal.jbool b)]
   | none => [])

/-- Truthiness of `load_config().get("ssh_agent_forwarding")`: `None` and
`False` are falsy. -/
def Config.forwardingOn (c : Config) : Bool :=
  match c.ssh_agent_forwarding with
  | some b => b
  | none => false

/-! ## Cosmetic colors (`SESSION_COLORS`, main.py lines 21-37) -/

/-- The fixed color palette. -/
def SESSION_COLORS : List String :=
  ["blue", "magenta", "cyan", "green", "yellow", "red",
   "colour39", "colour208", "colour135", "colour70", "colour197",
   "colour33", "colour172", "colour48", "colour99", "colour214",
   "colour168", "colour37", "colour190", "colour63"]

/-- Embeds `SESSION_COLORS[hash(name) % len(SESSION_COLORS)]`
(main.py line 118) as a function of the value the `hash()` builtin
returned for the name in the current process.  Python's `%` with a
positive divisor is `Int.emod`. -/
def colorAt (hashVal : Int) : String :=
  SESSION_COLORS.getD (hashVal.emod (SESSION_COLORS.length : Int)).toNat ""

/-! ## Session creation (`ssh_create_session`, main.py lines 100-120) -/

/-- The prefixed tmux session name, `full = PREFIX + name`. -/
def fullName (name : String) : String :=
  pfx ++ name

/-- The scan loop of `ssh_create_session`: the first listing line that
starts with `full + ":"`, if any (`break` on the first hit). -/
def scanForSession (fullColon : String) : List String → Option String
  | [] => none
  | l :: rest =>
    if strStartsWith l fullColon then some l else scanForSession fullColon rest

/-- What `ssh_create_session` returns and which remote commands it issued,
in order.  The leading listing query is always present. -/
structure CreateSessionResult where
  existed : Bool
  attached : Bool
  cmds : List String
deriving DecidableEq

/-- Embeds `ssh_create_session` (main.py lines 100-120).  `listingOut` is
the stdout captured from the listing query; `hashVal` is the value the
per-process `hash()` builtin returns for `name`.  When a listing line for
the exact prefixed name exists, the session's state is read off that line
and no mutation is issued; otherwise a detached session is created (with
the shared agent-socket environment seeding when forwarding is on) and its
cosmetic color is set. -/
def ssh_create_session (cfg : Config) (listingOut : String) (name : String)
    (hashVal : Int) : CreateSessionResult :=
  let full := fullName name
  let lines := pySplitlines (pyStrip listingOut)
  match scanForSession (full ++ (":")) lines with
  | some line =>
    { existed := true,
      attached := decide (lastColonField line ≠ ("0")),
      cmds := [listSessionsCmd] }
  | none =>
    let envOpt :=
      if cfg.forwardingOn then (" -e SSH_AUTH_SOCK=/tmp/resume/agent.sock") else ("")
    { existed := false, attached := false,
      cmds := [listSessionsCmd,
               ("tmux new-session -d -s ") ++ full ++ envOpt,
               ("tmux set -t ") ++ full ++ (" status-style \x27bg=") ++
                 colorAt hashVal ++ (",fg=black\x27")] }

/-! ## Window opening (`open_terminal_window`, main.py lines 134-158) -/

/-- The single shared socket-alias path the source uses,
`sock = "/tmp/resume/agent.sock"`. -/
def agentSock : String :=
  "/tmp/resume/agent.sock"

/-- The `setup` fragment of `open_terminal_window`: when forwarding is on,
refresh the shared alias and bind the session's `SSH_AUTH_SOCK` to it;
otherwise empty. -/
def openWindowSetup (fwd : Bool) (name : String) : String :=
  if fwd then
    ("mkdir -p /tmp/resume && ln -sf $SSH_AUTH_SOCK ") ++ agentSock ++
      (" && export SSH_AUTH_SOCK=") ++ agentSock ++
      (" && tmux set-environment -t ") ++ fullName name ++
      (" SSH_AUTH_SOCK ") ++ agentSock ++ (" && ")
  else ("")

/-- The `shell_cmd` string `open_terminal_window` asks the Terminal window
to run: an interactive ssh that runs the setup fragment and then attaches
to the session. -/
def openWindowShellCmd (fwd : Bool) (host name : String) : String :=
  let agentFlag := if fwd then (" -A") else ("")
  ("ssh -t") ++ agentFlag ++ (" ") ++ host ++ (" \x27$SHELL -lc \"") ++
    openWindowSetup fwd name ++ ("tmux attach -t ") ++ fullName name ++ ("\"\x27")

/-! ## Lifecycle branches of `main` (main.py lines 203-313)

Each branch is embedded as the trace it produces: the remote command
strings passed to `ssh_run`, in order, the names passed to
`open_terminal_window`, the number of `close_terminal_windows` calls, and
the process exit code. -/

structure BranchTrace where
  remoteCmds : List String
  windowOpens : List String
  windowCloseCalls : Nat
  exitCode : Nat
deriving DecidableEq

/-- The kill mutation for a session name, `tmux kill-session -t resume-s`. -/
def killCmdFor (s : String) : String :=
  ("tmux kill-session -t ") ++ pfx ++ s

/-- The detach mutation for a session name. -/
def detachCmdFor (s : String) : String :=
  ("tmux detach-client -s ") ++ pfx ++ s

/-- The relay-directory removal command issued by the clear branch. -/
def rmRelayDirCmd : String :=
  "rm -rf /tmp/resume"

/-- Embeds the `--clear` branch (main.py lines 271-282), as a function of
the snapshot returned by `list_remote_sessions`: when the snapshot is
non-empty, one kill per session (attached or not) followed by one
relay-directory removal; the window-close collaborator runs once in every
case, and the branch always exits 0. -/
def clearBranch (sessions : List (String × Bool)) : BranchTrace :=
  if sessions.isEmpty then
    { remoteCmds := [], windowOpens := [], windowCloseCalls := 1, exitCode := 0 }
  else
    { remoteCmds := (sessions.map (fun p => killCmdFor p.1)) ++ [rmRelayDirCmd],
      windowOpens := [], windowCloseCalls := 1, exitCode := 0 }

/-- Embeds the `--detach` branch (main.py lines 259-269): one detach
mutation per attached session, none for detached ones; the window-close
collaborator runs once in every case (also when nothing is attached), and
the branch always exits 0. -/
def detachBranch (sessions : List (String × Bool)) : BranchTrace :=
  let att := (sessions.filter (fun p => p.2)).map (fun p => p.1)
  { remoteCmds := att.map detachCmdFor, windowOpens := [],
    windowCloseCalls := 1, exitCode := 0 }

/-- Embeds the `--remove` branch (main.py lines 284-289) after the name
has passed validation: issue the kill; on nonzero exit report "not found"
and exit 1 without touching windows, otherwise close the session's window
(once) and exit 0.  No other remote command is issued — in particular no
relay-alias removal. -/
def removeBranch (name : String) (killSucceeds : Bool) : BranchTrace :=
  if killSucceeds then
    { remoteCmds := [killCmdFor name], windowOpens := [],
      windowCloseCalls := 1, exitCode := 0 }
  else
    { remoteCmds := [killCmdFor name], windowOpens := [],
      windowCloseCalls := 0, exitCode := 1 }

/-- What the create/attach branch printed. -/
inductive ResolveMsg
  | alreadyAttached
  | resuming
  | created
deriving DecidableEq

/-- Trace of the create/attach branch: the `ssh_create_session` outcome,
the names passed to `open_terminal_window`, and the message printed. -/
structure ResolveTrace where
  create : CreateSessionResult
  windowOpens : List String
  msg : ResolveMsg
deriving DecidableEq

/-- Embeds the `NAME` branch of `main` (main.py lines 291-302) after the
name has passed validation: run `ssh_create_session`; when it reports the
session attached, print "already attached" and return without opening a
window; otherwise open the window and report resuming or created. -/
def nameBranch (cfg : Config) (listingOut : String) (name : String)
    (hashVal : Int) : ResolveTrace :=
  let r := ssh_create_session cfg listingOut name hashVal
  if r.attached then
    { create := r, windowOpens := [], msg := ResolveMsg.alreadyAttached }
  else
    { create := r, windowOpens := [name],
      msg := if r.existed then ResolveMsg.resuming else ResolveMsg.created }

/-- Embeds the window-opening loop of the no-argument (resume-all) branch
(main.py lines 304-313) under failures: `open_terminal_window` runs
`subprocess.run(..., check=True)`, so a failing `osascript` raises and the
raise propagates out of the loop.  `fails s` says whether opening the
window for session `s` fails; the result is the list of sessions for which
an open was actually attempted, in order. -/
def openAttempts (fails : String → Bool) : List String → List String
  | [] => []
  | s :: rest => if fails s then [s] else s :: openAttempts fails rest

/-- Embeds the no-argument (resume-all) branch: attempt a window-open for
each currently-detached session of the snapshot, in order, stopping when
one open fails. -/
def resumeBranch (sessions : List (String × Bool)) (fails : String → Bool) :
    List String :=
  openAttempts fails ((sessions.filter (fun p => !p.2)).map (fun p => p.1))

/-! ## Claim theorems -/

/-- Claim C1 (evidence for a code bug): with credential forwarding
enabled, the attach command generated for session `web` creates/refreshes
the SINGLE SHARED alias `/tmp/resume/agent.sock` and binds the session's
`SSH_AUTH_SOCK` to that shared path; the per-session path
`/tmp/resume/resume-web.sock` asserted by the repository's tests occurs
nowhere in it, and the remove branch issues only the kill command — no
alias deletion at all. -/
theorem claim1_shared_alias_not_per_session :
    containsSub (openWindowShellCmd true ("user@host") ("web"))
        ("ln -sf $SSH_AUTH_SOCK /tmp/resume/agent.sock") = true ∧
    containsSub (openWindowShellCmd true ("user@host") ("web"))
        ("tmux set-environment -t resume-web SSH_AUTH_SOCK /tmp/resume/agent.sock") = true ∧
    containsSub (openWindowShellCmd true ("user@host") ("web"))
        ("resume-web.sock") = false ∧
    (removeBranch ("web") true).remoteCmds = [("tmux kill-session -t resume-web")] ∧
    containsSub ("tmux kill-session -t resume-web") ("rm ") = false := by
  decide

/-- Claim C2 (evidence for a code bug): the validation accepts every
name of the class (e.g. `"web"`) and rejects the empty string, `;`, `&`,
`$` and interior whitespace — but it ALSO accepts `"web\n"`, a name
containing whitespace, because Python's `$` matches just before a trailing
newline. -/
theorem claim2_trailing_newline_accepted :
    validate_session_name ("web\n") = true ∧
    ("web\n").data.any isWsp = true ∧
    validate_session_name ("web") = true ∧
    validate_session_name ("my-app_1") = true ∧
    validate_session_name ("") = false ∧
    validate_session_name ("a b") = false ∧
    validate_session_name ("a;b") = false ∧
    validate_session_name ("a&b") = false ∧
    validate_session_name ("a$b") = false ∧
    validate_session_name ("hello\nworld") = false := by
  decide

/-- Failure oracle for the C7 evidence: opening the window for session
`a` fails. -/
def failsOnA : String → Bool :=
  fun s => s == ("a")

/-- Claim C7 (evidence for a code bug): with two detached sessions where
the first window-open fails, the resume-all loop attempts only the first
open — the raise from `check=True` aborts the loop and the remaining
detached session `b` is never attempted (it would have been, had no open
failed). -/
theorem claim7_resume_all_aborts_on_first_failure :
    resumeBranch [(("a"), false), (("b"), false)] failsOnA = [("a")] ∧
    resumeBranch [(("a"), false), (("b"), false)] (fun _ => false)
        = [("a"), ("b")] := by
  decide

/-- Claim C8 (evidence for a code bug): the palette has 20 entries and the
selected color genuinely depends on the value the `hash()` builtin
returns — hash values 0 and 1 select different colors.  Python salts
`hash` on strings per process, so the same name can hash differently in
separate program invocations and then receives a different color. -/
theorem claim8_color_depends_on_process_hash :
    SESSION_COLORS.length = 20 ∧
    colorAt 0 = ("blue") ∧
    colorAt 1 = ("magenta") ∧
    colorAt 0 ≠ colorAt 1 := by
  decide

/-- Claim C10: on an empty snapshot the clear branch issues no remote
command at all (in particular no relay-directory removal), still invokes
the window-close collaborator exactly once, and exits 0. -/
theorem claim10_clear_on_empty_snapshot :
    (clearBranch []).remoteCmds = [] ∧
    (clearBranch []).windowCloseCalls = 1 ∧
    (clearBranch []).exitCode = 0 := by
  decide

/-- Claim C9: saving a configuration record and loading it back restores
the recognized fields exactly, and loading with no configuration file
present yields the empty record. -/
theorem claim9_config_round_trip (c : Config) (fs : Option JObj) :
    decodeConfig (load_config (save_config (encodeConfig c) fs)) = c ∧
    load_config none = [] ∧
    decodeConfig (load_config none) = { ssh_host := none, ssh_agent_forwarding := none } := by
  refine ⟨?_, rfl, rfl⟩
  obtain ⟨h, b⟩ := c
  cases h <;> cases b <;> rfl

/-- The kill command never equals the relay-directory removal command
(their texts differ at the first character). -/
theorem killCmdFor_ne_rm (s : String) : killCmdFor s ≠ rmRelayDirCmd := by
  intro h
  have hd : (killCmdFor s).data.take 2 = (rmRelayDirCmd).data.take 2 := by
    rw [h]
  have h1 : (killCmdFor s).data.take 2 = [ 't', 'm' ] := rfl
  have h2 : (rmRelayDirCmd).data.take 2 = [ 'r', 'm' ] := rfl
  rw [h1, h2] at hd
  simp at hd

/-- Every kill command starts with the kill mutation verb. -/
theorem killCmdFor_starts (s : String) :
    strStartsWith (killCmdFor s) ("tmux kill-session -t ") = true := rfl

/-- Claim C5: on a non-empty snapshot of `n` sessions (whatever their
attached flags) the clear branch issues exactly the `n` kill mutations in
snapshot order followed by the single relay-directory removal — `n + 1`
remote commands, of which exactly one is the removal and exactly `n` are
kill mutations — and invokes the window-close collaborator exactly once. -/
theorem claim5_clear_trace (sessions : List (String × Bool)) (h : sessions ≠ []) :
    (clearBranch sessions).remoteCmds
        = (sessions.map (fun p => killCmdFor p.1)) ++ [rmRelayDirCmd] ∧
    (clearBranch sessions).remoteCmds.length = sessions.length + 1 ∧
    (clearBranch sessions).remoteCmds.count rmRelayDirCmd = 1 ∧
    (clearBranch sessions).remoteCmds.countP
        (fun c => strStartsWith c ("tmux kill-session -t ")) = sessions.length ∧
    (clearBranch sessions).windowCloseCalls = 1 := by
  have hne : ¬ (sessions.isEmpty = true) := by
    cases sessions with
    | nil => exact absurd rfl h
    | cons a l => simp
  unfold clearBranch
  rw [if_neg hne]
  refine ⟨rfl, by simp, ?_, ?_, rfl⟩
  · rw [List.count_append]
    have hz : (sessions.map (fun p => killCmdFor p.1)).count rmRelayDirCmd = 0 := by
      rw [List.count_eq_zero]
      intro hmem
      obtain ⟨p, _, hp⟩ := List.mem_map.mp hmem
      exact killCmdFor_ne_rm p.1 hp
    rw [hz]
    simp
  · rw [List.countP_append, List.countP_map]
    have hone : (List.countP (fun c => strStartsWith c ("tmux kill-session -t "))
        [rmRelayDirCmd]) = 0 := by decide
    rw [hone]
    have hall : (List.countP
        ((fun c => strStartsWith c ("tmux kill-session -t ")) ∘ (fun p => killCmdFor p.1))
        sessions) = sessions.length := by
      rw [List.countP_eq_length]
      intro p _
      exact killCmdFor_starts p.1
    rw [hall]
    simp

/-- Concrete instantiation of the C5 theorem at a three-session snapshot
(two attached, one detached). -/
theorem claim5_witness :
    ([(("api"), true), (("bg"), true), (("web"), false)] : List (String × Bool)) ≠ [] ∧
    ((clearBranch [(("api"), true), (("bg"), true), (("web"), false)]).remoteCmds
        = ([(("api"), true), (("bg"), true), (("web"), false)].map
            (fun p => killCmdFor p.1)) ++ [rmRelayDirCmd] ∧
     (clearBranch [(("api"), true), (("bg"), true), (("web"), false)]).remoteCmds.length
        = [(("api"), true), (("bg"), true), (("web"), false)].length + 1 ∧
     (clearBranch [(("api"), true), (("bg"), true), (("web"), false)]).remoteCmds.count
        rmRelayDirCmd = 1 ∧
     (clearBranch [(("api"), true), (("bg"), true), (("web"), false)]).remoteCmds.countP
        (fun c => strStartsWith c ("tmux kill-session -t "))
        = [(("api"), true), (("bg"), true), (("web"), false)].length ∧
     (clearBranch [(("api"), true), (("bg"), true), (("web"), false)]).windowCloseCalls = 1) :=
  ⟨by decide, claim5_clear_trace [(("api"), true), (("bg"), true), (("web"), false)] (by decide)⟩

/-- Distinct session names produce distinct detach commands. -/
theorem detachCmdFor_inj {a b : String} (h : detachCmdFor a = detachCmdFor b) :
    a = b := by
  have hd := congrArg String.data h
  simp only [detachCmdFor, String.data_append] at hd
  exact String.ext (List.append_cancel_left hd)

/-- Claim C6: the detach branch issues exactly one detach mutation per
attached session of the snapshot — the command for `s` occurs in the
trace exactly when `(s, true)` is in the snapshot, and the number of
commands equals the number of attached entries — and invokes the
window-close collaborator exactly once, also when nothing is attached or
the snapshot is empty. -/
theorem claim6_detach_trace (sessions : List (String × Bool)) :
    (detachBranch sessions).remoteCmds.length
        = (sessions.filter (fun p => p.2)).length ∧
    (∀ s : String, detachCmdFor s ∈ (detachBranch sessions).remoteCmds
        ↔ (s, true) ∈ sessions) ∧
    (detachBranch sessions).windowCloseCalls = 1 := by
  have hrm : (detachBranch sessions).remoteCmds
      = ((sessions.filter (fun p => p.2)).map (fun p => p.1)).map detachCmdFor := rfl
  refine ⟨?_, ?_, rfl⟩
  · rw [hrm]
    simp
  · intro s
    rw [hrm]
    constructor
    · intro hmem
      obtain ⟨a, ha, heq⟩ := List.mem_map.mp hmem
      obtain ⟨p, hp, hp1⟩ := List.mem_map.mp ha
      obtain ⟨hpin, hp2⟩ := List.mem_filter.mp hp
      have has : a = s := detachCmdFor_inj heq
      have hps : p = (s, true) := by
        obtain ⟨n, b⟩ := p
        simp only at hp1 hp2
        rw [Prod.mk.injEq]
        exact ⟨hp1.trans has, hp2⟩
      rw [← hps]
      exact hpin
    · intro hin
      exact List.mem_map.mpr
        ⟨s, List.mem_map.mpr ⟨(s, true), List.mem_filter.mpr ⟨hin, rfl⟩, rfl⟩, rfl⟩

/-- A successful scan returns a line of the listing that starts with the
searched pattern. -/
theorem scanForSession_mem {fc l : String} {lines : List String}
    (h : scanForSession fc lines = some l) :
    l ∈ lines ∧ strStartsWith l fc = true := by
  induction lines with
  | nil => simp [scanForSession] at h
  | cons x xs ih =>
    by_cases hx : strStartsWith x fc = true
    · rw [scanForSession, if_pos hx, Option.some.injEq] at h
      rw [← h]
      exact ⟨List.mem_cons_self x xs, hx⟩
    · rw [scanForSession, if_neg hx] at h
      obtain ⟨hm, hs⟩ := ih h
      exact ⟨List.mem_cons_of_mem x hm, hs⟩

/-- When some listing line starts with the pattern, the scan finds one. -/
theorem scanForSession_ex {fc : String} {lines : List String}
    (h : ∃ l ∈ lines, strStartsWith l fc = true) :
    ∃ l, scanForSession fc lines = some l := by
  induction lines with
  | nil =>
    obtain ⟨l, hl, _⟩ := h
    exact absurd hl (List.not_mem_nil l)
  | cons x xs ih =>
    by_cases hx : strStartsWith x fc = true
    · exact ⟨x, by rw [scanForSession, if_pos hx]⟩
    · obtain ⟨l, hl, hs⟩ := h
      rcases List.mem_cons.mp hl with rfl | hmem
      · exact absurd hs hx
      · obtain ⟨l', hl'⟩ := ih ⟨l, hmem, hs⟩
        exact ⟨l', by rw [scanForSession, if_neg hx, hl']⟩

/-- Claim C3: when the captured listing reports the target session with a
nonzero attachment counter (its record lines all carry a counter text
other than `"0"`, and at least one record line exists),
`ssh_create_session` returns `(existed, attached) = (true, true)` having
issued only the single listing query and no mutation, and the create/attach
branch then reports "already attached" and never calls the window-open
collaborator. -/
theorem claim3_attached_short_circuit (cfg : Config) (stdout name : String) (hv : Int)
    (hex : ∃ l ∈ pySplitlines (pyStrip stdout),
        strStartsWith l (fullName name ++ (":")) = true)
    (hall : ∀ l ∈ pySplitlines (pyStrip stdout),
        strStartsWith l (fullName name ++ (":")) = true → lastColonField l ≠ ("0")) :
    ssh_create_session cfg stdout name hv
        = { existed := true, attached := true, cmds := [listSessionsCmd] } ∧
    (nameBranch cfg stdout name hv).windowOpens = [] ∧
    (nameBranch cfg stdout name hv).msg = ResolveMsg.alreadyAttached := by
  obtain ⟨l, hscan⟩ := scanForSession_ex hex
  obtain ⟨hmem, hsw⟩ := scanForSession_mem hscan
  have hne := hall l hmem hsw
  have hcreate : ssh_create_session cfg stdout name hv
      = { existed := true, attached := true, cmds := [listSessionsCmd] } := by
    simp only [ssh_create_session, hscan]
    rw [decide_eq_true hne]
  refine ⟨hcreate, ?_, ?_⟩ <;>
    simp [nameBranch, hcreate]

/-- Concrete instantiation of the C3 theorem: a listing consisting of the
single record `resume-web:1`, resolved for name `web`. -/
theorem claim3_witness :
    (∃ l ∈ pySplitlines (pyStrip ("resume-web:1")),
        strStartsWith l (fullName ("web") ++ (":")) = true) ∧
    (ssh_create_session ⟨some ("user@host"), some true⟩ ("resume-web:1") ("web") 0
        = { existed := true, attached := true, cmds := [listSessionsCmd] } ∧
     (nameBranch ⟨some ("user@host"), some true⟩ ("resume-web:1") ("web") 0).windowOpens
        = [] ∧
     (nameBranch ⟨some ("user@host"), some true⟩ ("resume-web:1") ("web") 0).msg
        = ResolveMsg.alreadyAttached) :=
  ⟨by decide,
   claim3_attached_short_circuit ⟨some ("user@host"), some true⟩ ("resume-web:1") ("web") 0
     (by decide) (by decide)⟩

/-- A list none of whose characters satisfies `p` is unchanged by
`dropWhile p`. -/
theorem dropWhile_of_all_false {p : Char → Bool} {cs : List Char}
    (h : ∀ c ∈ cs, p c = false) : cs.dropWhile p = cs := by
  cases cs with
  | nil => rfl
  | cons a l =>
    rw [List.dropWhile_cons, h a (List.mem_cons_self a l)]
    simp

/-- Stripping a string with no whitespace characters is the identity. -/
theorem trimC_eq_self {cs : List Char} (h : ∀ c ∈ cs, isWsp c = false) :
    trimC cs = cs := by
  unfold trimC
  rw [dropWhile_of_all_false h]
  rw [dropWhile_of_all_false (fun c hc => h c (List.mem_reverse.mp hc))]
  exact List.reverse_reverse cs

/-- Characters of the stripped string come from the original string. -/
theorem mem_trimC {c : Char} {cs : List Char} (h : c ∈ trimC cs) : c ∈ cs := by
  unfold trimC at h
  rw [List.mem_reverse] at h
  have h2 := (List.dropWhile_sublist isWsp).subset h
  rw [List.mem_reverse] at h2
  exact (List.dropWhile_sublist isWsp).subset h2

/-- A colon-free string has no last-colon split. -/
theorem breakLast_none {cs : List Char} (h : ∀ c ∈ cs, c ≠ ':') :
    breakLast cs = none := by
  induction cs with
  | nil => rfl
  | cons c l ih =>
    simp only [breakLast]
    rw [ih (fun x hx => h x (List.mem_cons_of_mem c hx))]
    simp [h c (List.mem_cons_self c l)]

/-- Splitting at the last colon recovers the two halves of a string whose
tail half is colon-free. -/
theorem breakLast_append {nm cnt : List Char} (h : ∀ c ∈ cnt, c ≠ ':') :
    breakLast (nm ++ ':' :: cnt) = some (nm, cnt) := by
  induction nm with
  | nil =>
    simp only [List.nil_append, breakLast]
    rw [breakLast_none h]
    simp
  | cons x xs ih =>
    simp only [List.cons_append, breakLast, List.append_eq]
    rw [ih]

/-- Lexicographic asymmetry. -/
theorem strLtB_asymm {as bs : List Char} (h : strLtB as bs = true) :
    strLtB bs as = false := by
  cases hx : strLtB bs as with
  | false => rfl
  | true =>
    have h2 := strLtB_trans h hx
    rw [strLtB_irrefl] at h2
    simp at h2

/-- A well-formed listing line `resume-<name>:<cnt>` (no whitespace, a
colon-free counter) parses to the name with the namespace stripped and an
attached flag that is set exactly when the counter text differs from
`"0"`. -/
theorem parseSessionLine_wf (name cnt : List Char)
    (hn : ∀ c ∈ name, isWsp c = false)
    (hc : ∀ c ∈ cnt, isWsp c = false ∧ c ≠ ':') :
    parseSessionLine (String.mk (pfx.data ++ name ++ ':' :: cnt))
      = some (String.mk name, decide (cnt ≠ [ '0' ])) := by
  have hwsp : ∀ c ∈ pfx.data ++ name ++ ':' :: cnt, isWsp c = false := by
    intro c hm
    rcases List.mem_append.mp hm with h1 | h2
    · rcases List.mem_append.mp h1 with ha | hb
      · exact (by decide : ∀ c ∈ pfx.data, isWsp c = false) c ha
      · exact hn c hb
    · rcases List.mem_cons.mp h2 with rfl | hcc
      · decide
      · exact (hc c hcc).1
  have hd : (String.mk (pfx.data ++ name ++ ':' :: cnt)).data
      = pfx.data ++ name ++ ':' :: cnt := rfl
  have hbreak : breakLast (pfx.data ++ name ++ ':' :: cnt)
      = some (pfx.data ++ name, cnt) :=
    breakLast_append (fun c h => (hc c h).2)
  have hpre : pfx.data.isPrefixOf (pfx.data ++ name) = true :=
    List.isPrefixOf_iff_prefix.mpr (List.prefix_append _ _)
  simp only [parseSessionLine, hd]
  rw [trimC_eq_self hwsp, hbreak]
  simp only [hpre, if_true]
  rw [List.drop_left]

/-- A well-formed listing line whose name does not carry the fixed
namespace is dropped. -/
theorem parseSessionLine_foreign (name cnt : List Char)
    (hn : ∀ c ∈ name, isWsp c = false)
    (hc : ∀ c ∈ cnt, isWsp c = false ∧ c ≠ ':')
    (hp : pfx.data.isPrefixOf name = false) :
    parseSessionLine (String.mk (name ++ ':' :: cnt)) = none := by
  have hwsp : ∀ c ∈ name ++ ':' :: cnt, isWsp c = false := by
    intro c hm
    rcases List.mem_append.mp hm with h1 | h2
    · exact hn c h1
    · rcases List.mem_cons.mp h2 with rfl | hcc
      · decide
      · exact (hc c hcc).1
  have hd : (String.mk (name ++ ':' :: cnt)).data = name ++ ':' :: cnt := rfl
  simp only [parseSessionLine, hd]
  rw [trimC_eq_self hwsp, breakLast_append (fun c h => (hc c h).2)]
  simp [hp]

/-- A colon-free line parses to nothing (it is skipped). -/
theorem parseSessionLine_skip {raw : String} (h : ∀ c ∈ raw.data, c ≠ ':') :
    parseSessionLine raw = none := by
  simp only [parseSessionLine]
  rw [breakLast_none (fun c hcm => h c (mem_trimC hcm))]

/-- Claim C4: the registry parser (a) on the spec's example output yields
exactly `[("api", true), ("web", false)]`; (b) silently skips a colon-free
line anywhere in the listing without affecting the other lines; (c) parses
every well-formed prefixed record to its stripped name with the attached
flag set exactly when the counter text is not `"0"`; (d) drops records
whose name does not carry the fixed namespace; and (e) always returns a
list whose names are in ascending (code-point) order. -/
theorem claim4_registry_parsing :
    list_remote_sessions ("resume-web:0\nresume-api:1\nother:0\n")
        = [(("api"), true), (("web"), false)] ∧
    (∀ (l1 l2 : List String) (bad : String), (∀ c ∈ bad.data, c ≠ ':') →
        listSessionsOfLines (l1 ++ bad :: l2) = listSessionsOfLines (l1 ++ l2)) ∧
    (∀ name cnt : List Char,
        (∀ c ∈ name, isWsp c = false) → (∀ c ∈ cnt, isWsp c = false ∧ c ≠ ':') →
        parseSessionLine (String.mk (pfx.data ++ name ++ ':' :: cnt))
          = some (String.mk name, decide (cnt ≠ [ '0' ]))) ∧
    (∀ name cnt : List Char,
        (∀ c ∈ name, isWsp c = false) → (∀ c ∈ cnt, isWsp c = false ∧ c ≠ ':') →
        pfx.data.isPrefixOf name = false →
        parseSessionLine (String.mk (name ++ ':' :: cnt)) = none) ∧
    (∀ stdout : String,
        List.Pairwise (fun a b => strLtB b.1.data a.1.data = false)
          (list_remote_sessions stdout)) := by
  refine ⟨by decide, ?_, parseSessionLine_wf, parseSessionLine_foreign, ?_⟩
  · intro l1 l2 bad hbad
    unfold listSessionsOfLines sessionsOfLines
    rw [List.filterMap_append, List.filterMap_append,
        List.filterMap_cons_none (parseSessionLine_skip hbad)]
  · intro stdout
    have hs : List.Sorted pairLe (list_remote_sessions stdout) :=
      List.sorted_insertionSort pairLe _
    refine hs.imp ?_
    intro a b h
    unfold pairLe pairLeB at h
    by_cases heq : a.1.data = b.1.data
    · rw [heq]
      exact strLtB_irrefl _
    · rw [if_neg heq] at h
      exact strLtB_asymm h

/-- Concrete instantiation of the C4 theorem: a colon-free banner line is
skipped between two records, and a well-formed record parses to its
stripped name and flag. -/
theorem claim4_witness :
    (∀ c ∈ ("remote banner").data, c ≠ ':') ∧
    listSessionsOfLines ([("resume-a:1")] ++ ("remote banner") :: [("resume-b:0")])
        = listSessionsOfLines ([("resume-a:1")] ++ [("resume-b:0")]) ∧
    parseSessionLine (String.mk (pfx.data ++ ("x").data ++ ':' :: ("1").data))
        = some (String.mk ("x").data, decide ((("1").data) ≠ [ '0' ])) :=
  ⟨by decide,
   claim4_registry_parsing.2.1 [("resume-a:1")] [("resume-b:0")] ("remote banner")
     (by decide),
   claim4_registry_parsing.2.2.1 ("x").data ("1").data (by decide) (by decide)⟩
